import Mathlib

/-!
Shallow embedding of the persistence layer of the architecture.log
application: the localStorage-backed `DataService` (users, posts,
comments, likes and the current-user session pointer), the
IndexedDB-backed blob store for image content (`saveImageBlob`,
keyed by generated `img_` identifiers), the one-time migration pass
`migrateOldData` that rewrites inline `data:image` entries into blob
identifiers, and the display-URL cache `getImageUrl`.

Strings of the JavaScript source are modelled as Lean `String`;
JavaScript's `startsWith` is modelled as a character-list prefix test
(`jsStartsWith`).  The browser's asynchronous effects are modelled by
explicit state passing: `LocalStorage` for the record store,
`BlobStore` for the IndexedDB image store, `UrlCache` for the object
URL cache.  Environmental failure of a per-image fetch/put during
migration is modelled by an oracle `fail : String → Bool` on the
inline data being converted; identifier generation (`Date.now` plus
random suffix) is modelled by a monotone counter, and object-URL
creation by a counter as well.  Timestamps (`Date.now()`,
`toISOString()`) are passed in as parameters.
-/

namespace ArchLog

/-- JavaScript s.startsWith pre, as a prefix test on the character lists. -/
def jsStartsWith (s pre : String) : Bool :=
  pre.data.isPrefixOf s.data

/-- User record: id, username, bio, createdAt. -/
structure User where
  id : String
  username : String
  bio : String
  createdAt : String
deriving DecidableEq, Repr

/-- Comment record: id, postId, userId, author name, text, createdAt. -/
structure Comment where
  id : String
  postId : String
  userId : String
  username : String
  text : String
  createdAt : String
deriving DecidableEq, Repr

/-- Like record: composite (postId, userId) plus createdAt; no own id. -/
structure Like where
  postId : String
  userId : String
  createdAt : String
deriving DecidableEq, Repr

/-- An entry of a post's images array: a JavaScript string, or some
non-string value (kept opaque; the migration only type-checks it). -/
inductive ImageEntry where
  | str (s : String)
  | nonString (tag : Nat)
deriving DecidableEq, Repr

/-- Post record.  `images` is `none` when the field is absent or not an
array (the `Array.isArray` guard); `image` is the legacy single-image
field, `none` when absent.  The vestigial `likes`/`comments` arrays
stored on posts are never consulted by the data layer and are omitted. -/
structure Post where
  id : String
  userId : String
  username : String
  buildingName : String
  category : String
  location : String
  date : String
  note : String
  tags : List String
  emotionColor : String
  images : Option (List ImageEntry)
  image : Option ImageEntry
  createdAt : String
deriving DecidableEq, Repr

/-- The localStorage keys used by DataService.  A field is `none` when
the key is absent (`localStorage.getItem` returns null). -/
structure LocalStorage where
  users : Option (List User)
  posts : Option (List Post)
  comments : Option (List Comment)
  likes : Option (List Like)
  currentUser : Option User
deriving DecidableEq, Repr

namespace DataService

/-- The default user created by init: id is user_ plus Date.now(),
username default, fixed bio, ISO timestamp. -/
def defaultUser (now : Nat) (iso : String) : User :=
  { id := "user_" ++ toString now
    username := "default"
    bio := "Architecture enthusiast"
    createdAt := iso }

/-- DataService.init: for each of the four collection keys, if the key
is absent, seed it — users with the one default user, the other three
with empty arrays. -/
def init (now : Nat) (iso : String) (ls : LocalStorage) : LocalStorage :=
  let ls := if ls.users = none then { ls with users := some [defaultUser now iso] } else ls
  let ls := if ls.posts = none then { ls with posts := some [] } else ls
  let ls := if ls.comments = none then { ls with comments := some [] } else ls
  if ls.likes = none then { ls with likes := some [] } else ls

/-- DataService.getUsers: parse the users key, empty array if absent. -/
def getUsers (ls : LocalStorage) : List User :=
  ls.users.getD []

/-- DataService.getPosts. -/
def getPosts (ls : LocalStorage) : List Post :=
  ls.posts.getD []

/-- DataService.getComments with no argument: all comments. -/
def getComments (ls : LocalStorage) : List Comment :=
  ls.comments.getD []

/-- DataService.getLikes with no argument: all likes. -/
def getLikes (ls : LocalStorage) : List Like :=
  ls.likes.getD []

/-- DataService.getCurrentUser: parse the current_user key. -/
def getCurrentUser (ls : LocalStorage) : Option User :=
  ls.currentUser

/-- The findIndex / replace-at-index / push pattern shared by saveUser
and savePost: replace the first record whose key matches, else append. -/
def upsertBy (key : α → String) (r : α) : List α → List α
  | [] => [r]
  | x :: xs => if key x = key r then r :: xs else x :: upsertBy key r xs

/-- DataService.saveUser: upsert by user id into the users key. -/
def saveUser (u : User) (ls : LocalStorage) : LocalStorage :=
  { ls with users := some (upsertBy User.id u (getUsers ls)) }

/-- DataService.setCurrentUser: set the current_user key, then saveUser. -/
def setCurrentUser (u : User) (ls : LocalStorage) : LocalStorage :=
  saveUser u { ls with currentUser := some u }

/-- DataService.savePost: upsert by post id into the posts key. -/
def savePost (p : Post) (ls : LocalStorage) : LocalStorage :=
  { ls with posts := some (upsertBy Post.id p (getPosts ls)) }

/-- DataService.deletePost: filter the post out by id, then filter the
comments and likes whose postId matches. -/
def deletePost (postId : String) (ls : LocalStorage) : LocalStorage :=
  { ls with
    posts := some ((getPosts ls).filter (fun p => p.id != postId))
    comments := some ((getComments ls).filter (fun c => c.postId != postId))
    likes := some ((getLikes ls).filter (fun l => l.postId != postId)) }

/-- DataService.saveComment: push onto the comments array. -/
def saveComment (c : Comment) (ls : LocalStorage) : LocalStorage :=
  { ls with comments := some (getComments ls ++ [c]) }

/-- Does a like for (postId, userId) match this record. -/
def likeMatches (p u : String) (l : Like) : Bool :=
  l.postId == p && l.userId == u

/-- The splice at findIndex in toggleLike: remove the first matching like. -/
def removeFirstLike (p u : String) : List Like → List Like
  | [] => []
  | l :: rest => if likeMatches p u l then rest else l :: removeFirstLike p u rest

/-- DataService.toggleLike: if a like for (postId, userId) exists remove
the first such, else push a new like with the creation timestamp. -/
def toggleLike (p u now : String) (ls : LocalStorage) : LocalStorage :=
  let likes := getLikes ls
  if likes.any (likeMatches p u) then
    { ls with likes := some (removeFirstLike p u likes) }
  else
    { ls with likes := some (likes ++ [⟨p, u, now⟩]) }

/-- DataService.isLiked: filter likes by postId, then test userId. -/
def isLiked (p u : String) (ls : LocalStorage) : Bool :=
  ((getLikes ls).filter (fun l => l.postId == p)).any (fun l => l.userId == u)

end DataService

/-- The IndexedDB images object store: key-to-content entries in
insertion order, plus the monotone source used to generate identifiers
(modelling Date.now() plus the random suffix). -/
structure BlobStore where
  blobs : List (String × String)
  counter : Nat
deriving DecidableEq, Repr

/-- The identifier generated by saveImageBlob: img_ followed by the
monotone/time component (the random suffix is absorbed into the
counter model; collision-resistance becomes freshness of the counter). -/
def genImageId (n : Nat) : String :=
  "img_" ++ toString n

/-- Modelled from the spec: the browser fetch of a data URI followed by
blob() decodes the inline data to binary content; the repository calls
the browser for this, so the binary content is represented here by the
data-URI text itself (the decoding is injective on the payload). -/
def dataUriToBlob (s : String) : String := s

/-- saveImageBlob: generate a fresh img_ identifier and put the content
into the images object store under it. -/
def saveImageBlob (content : String) (st : BlobStore) : String × BlobStore :=
  let id := genImageId st.counter
  (id, ⟨st.blobs ++ [(id, content)], st.counter + 1⟩)

/-- IndexedDB get on the images store: the value stored under the key,
none when absent (getImageBlob rejects with Image not found). -/
def lookupBlob (blobs : List (String × String)) (id : String) : Option String :=
  (blobs.find? (fun e => e.1 == id)).map (fun e => e.2)

/-- One iteration of the inner migration loop of migrateOldData over an
entry of post.images: an inline data:image string is converted and
replaced by the generated identifier (counting one migration) unless
the fetch/put fails, in which case the original string is kept; an
img_ identifier and any other value are pushed unchanged.  Returns the
new entry, the migration-count contribution and the new blob store. -/
def migrateImage (fail : String → Bool) (entry : ImageEntry) (st : BlobStore) :
    ImageEntry × Nat × BlobStore :=
  match entry with
  | .str s =>
    if jsStartsWith s "data:image" then
      if fail s then
        (.str s, 0, st)
      else
        let r := saveImageBlob (dataUriToBlob s) st
        (.str r.1, 1, r.2)
    else if jsStartsWith s "img_" then
      (.str s, 0, st)
    else
      (.str s, 0, st)
  | .nonString t => (.nonString t, 0, st)

/-- The inner migration loop over a whole images array, threading the
blob store and summing the migration counts. -/
def migrateImages (fail : String → Bool) :
    List ImageEntry → BlobStore → List ImageEntry × Nat × BlobStore
  | [], st => ([], 0, st)
  | e :: es, st =>
    let r := migrateImage fail e st
    let rs := migrateImages fail es r.2.2
    (r.1 :: rs.1, r.2.1 + rs.2.1, rs.2.2)

/-- The per-post body of migrateOldData: if post.images is an array,
run the inner loop and store the rewritten array; otherwise, if the
legacy single-image field holds an inline data:image string, convert it
into a one-element images array and delete the legacy field, keeping
the post unchanged when the fetch/put fails. -/
def migratePost (fail : String → Bool) (post : Post) (st : BlobStore) :
    Post × Nat × BlobStore :=
  match post.images with
  | some imgs =>
    let r := migrateImages fail imgs st
    ({ post with images := some r.1 }, r.2.1, r.2.2)
  | none =>
    match post.image with
    | some (.str s) =>
      if jsStartsWith s "data:image" then
        if fail s then
          (post, 0, st)
        else
          let r := saveImageBlob (dataUriToBlob s) st
          ({ post with images := some [.str r.1], image := none }, 1, r.2)
      else (post, 0, st)
    | _ => (post, 0, st)

/-- The outer loop of migrateOldData over all posts. -/
def migratePosts (fail : String → Bool) :
    List Post → BlobStore → List Post × Nat × BlobStore
  | [], st => ([], 0, st)
  | p :: ps, st =>
    let r := migratePost fail p st
    let rs := migratePosts fail ps r.2.2
    (r.1 :: rs.1, r.2.1 + rs.2.1, rs.2.2)

/-- migrateOldData: load all posts, migrate them, and persist the
rewritten collection with one setItem only when at least one image was
migrated. -/
def migrateOldData (fail : String → Bool) (ls : LocalStorage) (st : BlobStore) :
    LocalStorage × BlobStore :=
  let r := migratePosts fail (DataService.getPosts ls) st
  if r.2.1 > 0 then
    ({ ls with posts := some r.1 }, r.2.2)
  else
    (ls, r.2.2)

/-- A run of the migration in which every per-image fetch/put succeeds. -/
def noFail : String → Bool := fun _ => false

/-- The imageUrlCache Map (in insertion order) together with the counter
modelling URL.createObjectURL handle generation. -/
structure UrlCache where
  cache : List (String × String)
  urlCounter : Nat
deriving DecidableEq, Repr

/-- The object URL handle materialized by URL.createObjectURL. -/
def createObjectURL (n : Nat) : String :=
  "blob:" ++ toString n

/-- Map.get on the imageUrlCache. -/
def lookupCache (cache : List (String × String)) (id : String) : Option String :=
  (cache.find? (fun e => e.1 == id)).map (fun e => e.2)

/-- getImageUrl: return the cached URL if present; otherwise return an
inline data:image string unchanged; otherwise get the blob from
IndexedDB, materialize an object URL, cache and return it; when the
blob is absent the catch returns the empty string. -/
def getImageUrl (imageId : String) (st : BlobStore) (c : UrlCache) :
    String × UrlCache :=
  match lookupCache c.cache imageId with
  | some url => (url, c)
  | none =>
    if jsStartsWith imageId "data:image" then
      (imageId, c)
    else
      match lookupBlob st.blobs imageId with
      | some _ =>
        let url := createObjectURL c.urlCounter
        (url, ⟨c.cache ++ [(imageId, url)], c.urlCounter + 1⟩)
      | none => ("", c)

/-! Helper predicates and lemmas for the migration pass. -/

/-- An image entry on which the migration loop is a no-op: anything that
is not an inline data:image string. -/
def entryMigrated : ImageEntry → Bool
  | .str s => !(jsStartsWith s "data:image")
  | .nonString _ => true

/-- A post on which the migration pass is a no-op: its images array (when
present) holds no inline data, and otherwise its legacy single-image
field holds no inline data. -/
def postStable (p : Post) : Bool :=
  match p.images with
  | some imgs => imgs.all entryMigrated
  | none =>
    match p.image with
    | some (.str s) => !(jsStartsWith s "data:image")
    | _ => true

theorem genImageId_not_inline (n : Nat) :
    jsStartsWith (genImageId n) "data:image" = false := by
  have h : (genImageId n).data = 'i' :: 'm' :: 'g' :: '_' :: (toString n).data := by
    simp [genImageId, String.data_append]
  simp [jsStartsWith, h, List.isPrefixOf]

theorem migrateImage_noFail_migrated (e : ImageEntry) (st : BlobStore) :
    entryMigrated (migrateImage noFail e st).1 = true := by
  cases e with
  | str s =>
    by_cases h : jsStartsWith s "data:image"
    · simp [migrateImage, noFail, h, saveImageBlob, entryMigrated, genImageId_not_inline]
    · simp only [Bool.not_eq_true] at h
      simp [migrateImage, h, entryMigrated]
  | nonString t => simp [migrateImage, entryMigrated]

theorem migrateImage_stable (fail : String → Bool) (e : ImageEntry) (st : BlobStore)
    (h : entryMigrated e = true) : migrateImage fail e st = (e, 0, st) := by
  cases e with
  | str s =>
    simp only [entryMigrated, Bool.not_eq_true'] at h
    simp [migrateImage, h]
  | nonString t => simp [migrateImage]

theorem migrateImage_noFail_zero (e : ImageEntry) (st : BlobStore)
    (h : (migrateImage noFail e st).2.1 = 0) : entryMigrated e = true := by
  cases e with
  | str s =>
    by_cases hd : jsStartsWith s "data:image"
    · simp [migrateImage, noFail, hd, saveImageBlob] at h
    · simp only [Bool.not_eq_true] at hd
      simp [entryMigrated, hd]
  | nonString t => simp [entryMigrated]

theorem migrateImages_noFail_migrated (es : List ImageEntry) (st : BlobStore) :
    ((migrateImages noFail es st).1).all entryMigrated = true := by
  induction es generalizing st with
  | nil => simp [migrateImages]
  | cons e es ih =>
    simp [migrateImages, migrateImage_noFail_migrated, ih]

theorem migrateImages_stable (fail : String → Bool) (es : List ImageEntry) (st : BlobStore)
    (h : es.all entryMigrated = true) : migrateImages fail es st = (es, 0, st) := by
  induction es generalizing st with
  | nil => simp [migrateImages]
  | cons e es ih =>
    simp only [List.all_cons, Bool.and_eq_true] at h
    simp [migrateImages, migrateImage_stable fail e st h.1, ih st h.2]

theorem migrateImages_noFail_zero (es : List ImageEntry) (st : BlobStore)
    (h : (migrateImages noFail es st).2.1 = 0) : es.all entryMigrated = true := by
  induction es generalizing st with
  | nil => simp
  | cons e es ih =>
    simp only [migrateImages] at h
    have h1 : (migrateImage noFail e st).2.1 = 0 := by omega
    have h2 : (migrateImages noFail es (migrateImage noFail e st).2.2).2.1 = 0 := by omega
    simp [migrateImage_noFail_zero e st h1, ih _ h2]

theorem migratePost_noFail_stable (p : Post) (st : BlobStore) :
    postStable (migratePost noFail p st).1 = true := by
  cases hp : p.images with
  | some imgs =>
    simp [migratePost, hp, postStable, migrateImages_noFail_migrated]
  | none =>
    cases hi : p.image with
    | some e =>
      cases e with
      | str s =>
        by_cases hd : jsStartsWith s "data:image"
        · simp [migratePost, hp, hi, hd, noFail, saveImageBlob, postStable,
            entryMigrated, genImageId_not_inline]
        · simp only [Bool.not_eq_true] at hd
          simp [migratePost, hp, hi, hd, postStable]
      | nonString t => simp [migratePost, hp, hi, postStable]
    | none => simp [migratePost, hp, hi, postStable]

theorem migratePost_stable (fail : String → Bool) (p : Post) (st : BlobStore)
    (h : postStable p = true) : migratePost fail p st = (p, 0, st) := by
  cases hp : p.images with
  | some imgs =>
    have hall : imgs.all entryMigrated = true := by
      simpa [postStable, hp] using h
    have hself : { p with images := some imgs } = p := by
      cases p
      simp_all
    simp [migratePost, hp, migrateImages_stable fail imgs st hall, hself]
  | none =>
    cases hi : p.image with
    | some e =>
      cases e with
      | str s =>
        have hd : jsStartsWith s "data:image" = false := by
          simpa [postStable, hp, hi] using h
        simp [migratePost, hp, hi, hd]
      | nonString t => simp [migratePost, hp, hi]
    | none => simp [migratePost, hp, hi]

theorem migratePost_noFail_zero (p : Post) (st : BlobStore)
    (h : (migratePost noFail p st).2.1 = 0) : postStable p = true := by
  cases hp : p.images with
  | some imgs =>
    simp only [migratePost, hp] at h
    simpa [postStable, hp] using migrateImages_noFail_zero imgs st h
  | none =>
    cases hi : p.image with
    | some e =>
      cases e with
      | str s =>
        by_cases hd : jsStartsWith s "data:image"
        · simp [migratePost, hp, hi, hd, noFail, saveImageBlob] at h
        · simp only [Bool.not_eq_true] at hd
          simp [postStable, hp, hi, hd]
      | nonString t => simp [postStable, hp, hi]
    | none => simp [postStable, hp, hi]

theorem migratePosts_noFail_stable (ps : List Post) (st : BlobStore) :
    ((migratePosts noFail ps st).1).all postStable = true := by
  induction ps generalizing st with
  | nil => simp [migratePosts]
  | cons p ps ih =>
    simp [migratePosts, migratePost_noFail_stable, ih]

theorem migratePosts_stable (fail : String → Bool) (ps : List Post) (st : BlobStore)
    (h : ps.all postStable = true) : migratePosts fail ps st = (ps, 0, st) := by
  induction ps generalizing st with
  | nil => simp [migratePosts]
  | cons p ps ih =>
    simp only [List.all_cons, Bool.and_eq_true] at h
    simp [migratePosts, migratePost_stable fail p st h.1, ih st h.2]

theorem migratePosts_noFail_zero (ps : List Post) (st : BlobStore)
    (h : (migratePosts noFail ps st).2.1 = 0) : ps.all postStable = true := by
  induction ps generalizing st with
  | nil => simp
  | cons p ps ih =>
    simp only [migratePosts] at h
    have h1 : (migratePost noFail p st).2.1 = 0 := by omega
    have h2 : (migratePosts noFail ps (migratePost noFail p st).2.2).2.1 = 0 := by omega
    simp [migratePost_noFail_zero p st h1, ih _ h2]

/-- C1: running the migration twice in a row, the first run fully
successful (no per-image failure), is a no-op on the second run: the
stored localStorage state and the blob store (hence the number of
blob-store writes) after the second run are identical to those after
the first run, whatever failures the second run would have seen. -/
theorem migrate_run_twice_noop (fail₂ : String → Bool) (ls : LocalStorage) (st : BlobStore) :
    migrateOldData fail₂ (migrateOldData noFail ls st).1 (migrateOldData noFail ls st).2
      = migrateOldData noFail ls st := by
  by_cases hc : (migratePosts noFail (DataService.getPosts ls) st).2.1 > 0
  · have hall := migratePosts_noFail_stable (DataService.getPosts ls) st
    have hfst :
        migrateOldData noFail ls st =
          ({ ls with posts := some (migratePosts noFail (DataService.getPosts ls) st).1 },
            (migratePosts noFail (DataService.getPosts ls) st).2.2) := by
      simp [migrateOldData, hc]
    rw [hfst]
    have hget :
        DataService.getPosts
          { ls with posts := some (migratePosts noFail (DataService.getPosts ls) st).1 }
          = (migratePosts noFail (DataService.getPosts ls) st).1 := by
      simp [DataService.getPosts]
    simp [migrateOldData, hget, migratePosts_stable fail₂ _ _ hall]
  · have hz : (migratePosts noFail (DataService.getPosts ls) st).2.1 = 0 := by omega
    have hall := migratePosts_noFail_zero (DataService.getPosts ls) st hz
    have hfst :
        migrateOldData noFail ls st =
          (ls, (migratePosts noFail (DataService.getPosts ls) st).2.2) := by
      simp [migrateOldData, hz]
    rw [hfst]
    simp [migrateOldData, migratePosts_stable fail₂ _ _ hall]

/-- C5: if the per-image fetch/put fails on an inline data:image entry,
the original inline string is retained at the same position of the
images array, and the migration loop continues over the remaining
entries exactly as it would have (never aborting): the run on the whole
array decomposes into the run on the prefix, the retained entry, and
the run on the suffix from the prefix's blob store. -/
theorem migrate_keeps_failed_image (fail : String → Bool) (s : String)
    (pre suf : List ImageEntry) (st : BlobStore)
    (hdata : jsStartsWith s "data:image" = true) (hfail : fail s = true) :
    migrateImages fail (pre ++ .str s :: suf) st =
      ((migrateImages fail pre st).1 ++ .str s ::
          (migrateImages fail suf (migrateImages fail pre st).2.2).1,
        (migrateImages fail pre st).2.1 +
          (migrateImages fail suf (migrateImages fail pre st).2.2).2.1,
        (migrateImages fail suf (migrateImages fail pre st).2.2).2.2) := by
  induction pre generalizing st with
  | nil => simp [migrateImages, migrateImage, hdata, hfail]
  | cons e pre ih =>
    simp [migrateImages, ih, Nat.add_assoc]

/-- A migration-failure oracle failing exactly on one inline string. -/
def cexFail : String → Bool := fun s => s == "data:image/x"

/-- Witness for C5 at a concrete three-entry images array whose middle
entry fails to convert. -/
theorem migrate_keeps_failed_image_witness :
    migrateImages cexFail [.str "img_3", .str "data:image/x", .str "data:image/y"] ⟨[], 0⟩ =
      ([.str "img_3", .str "data:image/x", .str "img_0"], 1,
        ⟨[("img_0", "data:image/y")], 1⟩) :=
  (migrate_keeps_failed_image cexFail "data:image/x" [.str "img_3"] [.str "data:image/y"]
    ⟨[], 0⟩ (by decide) (by decide)).trans (by decide)

/-- C7: a post with no images array whose legacy single-image field is
an inline data:image string is converted (when the fetch/put succeeds)
into a one-element images array holding the identifier returned by the
blob store, the decoded content is stored under that identifier, and
the legacy field is removed. -/
theorem migrate_legacy_single_image (fail : String → Bool) (p : Post) (st : BlobStore)
    (s : String) (himg : p.images = none) (hleg : p.image = some (.str s))
    (hdata : jsStartsWith s "data:image" = true) (hok : fail s = false) :
    migratePost fail p st =
      ({ p with images := some [.str (genImageId st.counter)], image := none }, 1,
        ⟨st.blobs ++ [(genImageId st.counter, dataUriToBlob s)], st.counter + 1⟩) ∧
    (genImageId st.counter, dataUriToBlob s) ∈ (migratePost fail p st).2.2.blobs := by
  have h : migratePost fail p st =
      ({ p with images := some [.str (genImageId st.counter)], image := none }, 1,
        ⟨st.blobs ++ [(genImageId st.counter, dataUriToBlob s)], st.counter + 1⟩) := by
    simp [migratePost, himg, hleg, hdata, hok, saveImageBlob]
  exact ⟨h, by rw [h]; simp⟩

/-- A concrete legacy-format post used as the witness input for C7. -/
def legacyPost : Post :=
  ⟨"p2", "u", "n", "b", "c", "l", "d", "note", [], "red", none, some (.str "data:image/y"), "t"⟩

/-- Witness for C7 on a concrete legacy post with a fresh blob store. -/
theorem migrate_legacy_single_image_witness :
    (migratePost cexFail legacyPost ⟨[], 0⟩).1.images = some [.str "img_0"] ∧
    (migratePost cexFail legacyPost ⟨[], 0⟩).1.image = none ∧
    ("img_0", "data:image/y") ∈ (migratePost cexFail legacyPost ⟨[], 0⟩).2.2.blobs := by
  have h := migrate_legacy_single_image cexFail legacyPost ⟨[], 0⟩ "data:image/y"
    (by decide) (by decide) (by decide) (by decide)
  rw [h.1]
  exact ⟨by decide, by decide, by decide⟩

/-- C4: deletePost removes the post with the given id and every comment
and like whose postId matches it; every other post, comment and like
survives unchanged, and the survivors keep their original order (each
surviving collection is a sublist of the original); users untouched. -/
theorem deletePost_spec (pid : String) (ls : LocalStorage) :
    (∀ p ∈ DataService.getPosts (DataService.deletePost pid ls), p.id ≠ pid) ∧
    (∀ c ∈ DataService.getComments (DataService.deletePost pid ls), c.postId ≠ pid) ∧
    (∀ l ∈ DataService.getLikes (DataService.deletePost pid ls), l.postId ≠ pid) ∧
    (∀ p ∈ DataService.getPosts ls, p.id ≠ pid →
      p ∈ DataService.getPosts (DataService.deletePost pid ls)) ∧
    (∀ c ∈ DataService.getComments ls, c.postId ≠ pid →
      c ∈ DataService.getComments (DataService.deletePost pid ls)) ∧
    (∀ l ∈ DataService.getLikes ls, l.postId ≠ pid →
      l ∈ DataService.getLikes (DataService.deletePost pid ls)) ∧
    List.Sublist (DataService.getPosts (DataService.deletePost pid ls))
      (DataService.getPosts ls) ∧
    List.Sublist (DataService.getComments (DataService.deletePost pid ls))
      (DataService.getComments ls) ∧
    List.Sublist (DataService.getLikes (DataService.deletePost pid ls))
      (DataService.getLikes ls) ∧
    DataService.getUsers (DataService.deletePost pid ls) = DataService.getUsers ls := by
  have hp : DataService.getPosts (DataService.deletePost pid ls)
      = (DataService.getPosts ls).filter (fun p => p.id != pid) := by
    simp [DataService.deletePost, DataService.getPosts]
  have hc : DataService.getComments (DataService.deletePost pid ls)
      = (DataService.getComments ls).filter (fun c => c.postId != pid) := by
    simp [DataService.deletePost, DataService.getComments]
  have hl : DataService.getLikes (DataService.deletePost pid ls)
      = (DataService.getLikes ls).filter (fun l => l.postId != pid) := by
    simp [DataService.deletePost, DataService.getLikes]
  refine ⟨?_, ?_, ?_, ?_, ?_, ?_, ?_, ?_, ?_, ?_⟩
  · intro p hmem
    rw [hp] at hmem
    simpa using (List.of_mem_filter hmem)
  · intro c hmem
    rw [hc] at hmem
    simpa using (List.of_mem_filter hmem)
  · intro l hmem
    rw [hl] at hmem
    simpa using (List.of_mem_filter hmem)
  · intro p hmem hne
    rw [hp]
    exact List.mem_filter.2 ⟨hmem, by simpa using hne⟩
  · intro c hmem hne
    rw [hc]
    exact List.mem_filter.2 ⟨hmem, by simpa using hne⟩
  · intro l hmem hne
    rw [hl]
    exact List.mem_filter.2 ⟨hmem, by simpa using hne⟩
  · rw [hp]; exact List.filter_sublist _
  · rw [hc]; exact List.filter_sublist _
  · rw [hl]; exact List.filter_sublist _
  · simp [DataService.deletePost, DataService.getUsers]

theorem mem_upsertBy_self (key : α → String) (r : α) (l : List α) :
    r ∈ DataService.upsertBy key r l := by
  induction l with
  | nil => simp [DataService.upsertBy]
  | cons x xs ih =>
    by_cases h : key x = key r
    · simp [DataService.upsertBy, h]
    · simp only [DataService.upsertBy, if_neg h]
      exact List.mem_cons_of_mem x ih

/-- C8: setCurrentUser sets the session pointer, so getCurrentUser
returns the user, and also upserts the user into the persisted user
collection (so the user is a member of it afterwards). -/
theorem setCurrentUser_spec (u : User) (ls : LocalStorage) :
    DataService.getCurrentUser (DataService.setCurrentUser u ls) = some u ∧
    u ∈ DataService.getUsers (DataService.setCurrentUser u ls) ∧
    DataService.getUsers (DataService.setCurrentUser u ls)
      = DataService.upsertBy User.id u (DataService.getUsers ls) := by
  refine ⟨rfl, ?_, rfl⟩
  exact mem_upsertBy_self User.id u (DataService.getUsers ls)

/-- C10: init on a fully uninitialized store seeds the users collection
with exactly the one default user (username default) — so reading users
gives a non-empty sequence with no login having occurred — while posts,
comments and likes are initialized to empty sequences. -/
theorem init_seeds_default_user (now : Nat) (iso : String) (ls : LocalStorage)
    (hu : ls.users = none) (hp : ls.posts = none)
    (hc : ls.comments = none) (hl : ls.likes = none) :
    DataService.getUsers (DataService.init now iso ls)
      = [DataService.defaultUser now iso] ∧
    DataService.getUsers (DataService.init now iso ls) ≠ [] ∧
    (DataService.defaultUser now iso).username = "default" ∧
    DataService.getPosts (DataService.init now iso ls) = [] ∧
    DataService.getComments (DataService.init now iso ls) = [] ∧
    DataService.getLikes (DataService.init now iso ls) = [] := by
  simp [DataService.init, hu, hp, hc, hl, DataService.getUsers, DataService.getPosts,
    DataService.getComments, DataService.getLikes, DataService.defaultUser]

/-- Witness for C10 on the fully empty localStorage. -/
theorem init_seeds_default_user_witness :
    DataService.getUsers (DataService.init 0 "t" ⟨none, none, none, none, none⟩)
      = [DataService.defaultUser 0 "t"] ∧
    DataService.getUsers (DataService.init 0 "t" ⟨none, none, none, none, none⟩) ≠ [] ∧
    (DataService.defaultUser 0 "t").username = "default" ∧
    DataService.getPosts (DataService.init 0 "t" ⟨none, none, none, none, none⟩) = [] ∧
    DataService.getComments (DataService.init 0 "t" ⟨none, none, none, none, none⟩) = [] ∧
    DataService.getLikes (DataService.init 0 "t" ⟨none, none, none, none, none⟩) = [] :=
  init_seeds_default_user 0 "t" ⟨none, none, none, none, none⟩ rfl rfl rfl rfl

/-! Helper lemmas about the like toggle. -/

theorem isLiked_eq_any (p u : String) (ls : LocalStorage) :
    DataService.isLiked p u ls
      = (DataService.getLikes ls).any (DataService.likeMatches p u) := by
  simp only [DataService.isLiked, List.any_filter]
  rfl

theorem getLikes_toggleLike (p u ts : String) (ls : LocalStorage) :
    DataService.getLikes (DataService.toggleLike p u ts ls)
      = if (DataService.getLikes ls).any (DataService.likeMatches p u)
        then DataService.removeFirstLike p u (DataService.getLikes ls)
        else DataService.getLikes ls ++ [⟨p, u, ts⟩] := by
  simp only [DataService.toggleLike, DataService.getLikes]
  split <;> rfl

theorem removeFirstLike_sublist (p u : String) (l : List Like) :
    List.Sublist (DataService.removeFirstLike p u l) l := by
  induction l with
  | nil => simp [DataService.removeFirstLike]
  | cons x xs ih =>
    by_cases h : DataService.likeMatches p u x
    · simp only [DataService.removeFirstLike, if_pos h]
      exact List.sublist_cons_self x xs
    · simp only [DataService.removeFirstLike, if_neg h]
      exact List.Sublist.cons₂ x ih

theorem any_removeFirstLike_of_disjoint (p u : String) (Q : Like → Bool) (l : List Like)
    (h : ∀ x, DataService.likeMatches p u x = true → Q x = false) :
    (DataService.removeFirstLike p u l).any Q = l.any Q := by
  induction l with
  | nil => simp [DataService.removeFirstLike]
  | cons x xs ih =>
    by_cases hx : DataService.likeMatches p u x
    · simp [DataService.removeFirstLike, hx, h x hx]
    · simp [DataService.removeFirstLike, hx, ih]

theorem any_removeFirstLike_self (p u : String) (l : List Like)
    (hdup : l.countP (DataService.likeMatches p u) ≤ 1) :
    (DataService.removeFirstLike p u l).any (DataService.likeMatches p u) = false := by
  induction l with
  | nil => simp [DataService.removeFirstLike]
  | cons x xs ih =>
    by_cases hx : DataService.likeMatches p u x
    · simp only [DataService.removeFirstLike, if_pos hx]
      rw [List.countP_cons_of_pos _ _ hx] at hdup
      have hz : xs.countP (DataService.likeMatches p u) = 0 := by omega
      simp only [List.countP_eq_zero] at hz
      simp only [List.any_eq_false]
      exact hz
    · simp only [DataService.removeFirstLike, if_neg hx]
      rw [List.countP_cons_of_neg _ _ (by simpa using hx)] at hdup
      simp [hx, ih hdup]

theorem removeFirstLike_append_of_absent (p u : String) (xs ys : List Like)
    (h : xs.any (DataService.likeMatches p u) = false) :
    DataService.removeFirstLike p u (xs ++ ys)
      = xs ++ DataService.removeFirstLike p u ys := by
  induction xs with
  | nil => simp
  | cons x xs ih =>
    simp only [List.any_cons, Bool.or_eq_false_iff] at h
    simp [DataService.removeFirstLike, h.1, ih h.2]

theorem likeMatches_new (p u ts q v : String) :
    DataService.likeMatches q v ⟨p, u, ts⟩ = (p == q && u == v) := rfl

/-- Counterexample for C2 as literally stated: with two likes stored and
the liked pair being the first, toggling the same pair twice does not
return the Like collection to its pre-call state (the re-added like
moves to the end of the collection); and with a duplicated pair stored,
one toggle does not flip isLiked to false. -/
theorem toggleLike_double_cex :
    DataService.getLikes (DataService.toggleLike "p1" "u1" "t0"
        (DataService.toggleLike "p1" "u1" "t0"
          ⟨some [], some [], some [], some [⟨"p1", "u1", "t0"⟩, ⟨"p2", "u2", "t0"⟩], none⟩))
      ≠ [⟨"p1", "u1", "t0"⟩, ⟨"p2", "u2", "t0"⟩] ∧
    DataService.isLiked "p1" "u1"
        ⟨some [], some [], some [], some [⟨"p1", "u1", "t0"⟩, ⟨"p1", "u1", "t1"⟩], none⟩
      = true ∧
    DataService.isLiked "p1" "u1" (DataService.toggleLike "p1" "u1" "t2"
        ⟨some [], some [], some [], some [⟨"p1", "u1", "t0"⟩, ⟨"p1", "u1", "t1"⟩], none⟩)
      = true := by
  refine ⟨by decide, by decide, by decide⟩

/-- C2 amended: on a Like collection holding at most one like for the
pair (p,u), one toggleLike flips isLiked(p,u); toggling twice restores
the collection exactly when (p,u) was not liked, and in general
restores the liked-state of every pair (when (p,u) was liked, the
removed like is re-appended at the end with a fresh timestamp rather
than restored byte-identically in place). -/
theorem toggleLike_amended (ls : LocalStorage) (p u ts ts2 : String)
    (hdup : (DataService.getLikes ls).countP (DataService.likeMatches p u) ≤ 1) :
    DataService.isLiked p u (DataService.toggleLike p u ts ls)
      = !(DataService.isLiked p u ls) ∧
    (DataService.isLiked p u ls = false →
      DataService.getLikes (DataService.toggleLike p u ts2 (DataService.toggleLike p u ts ls))
        = DataService.getLikes ls) ∧
    (∀ q v, DataService.isLiked q v
        (DataService.toggleLike p u ts2 (DataService.toggleLike p u ts ls))
        = DataService.isLiked q v ls) := by
  by_cases hex : (DataService.getLikes ls).any (DataService.likeMatches p u)
  · have hget1 : DataService.getLikes (DataService.toggleLike p u ts ls)
        = DataService.removeFirstLike p u (DataService.getLikes ls) := by
      rw [getLikes_toggleLike, if_pos hex]
    have hrem : (DataService.removeFirstLike p u (DataService.getLikes ls)).any
        (DataService.likeMatches p u) = false :=
      any_removeFirstLike_self p u _ hdup
    have h2 : DataService.getLikes
        (DataService.toggleLike p u ts2 (DataService.toggleLike p u ts ls))
        = DataService.removeFirstLike p u (DataService.getLikes ls) ++ [⟨p, u, ts2⟩] := by
      rw [getLikes_toggleLike, hget1, hrem]
      simp
    refine ⟨?_, ?_, ?_⟩
    · rw [isLiked_eq_any, isLiked_eq_any, hget1, hrem, hex]
      rfl
    · intro hfalse
      rw [isLiked_eq_any, hex] at hfalse
      simp at hfalse
    · intro q v
      rw [isLiked_eq_any, isLiked_eq_any, h2]
      by_cases hqv : p = q ∧ u = v
      · obtain ⟨hq, hv⟩ := hqv
        subst hq; subst hv
        simp [DataService.likeMatches, hex]
      · have hnew : DataService.likeMatches q v ⟨p, u, ts2⟩ = false := by
          rw [likeMatches_new]
          rcases not_and_or.1 hqv with h | h <;> simp [h]
        have hdisj : ∀ x, DataService.likeMatches p u x = true →
            DataService.likeMatches q v x = false := by
          intro x hx
          simp only [DataService.likeMatches, Bool.and_eq_true, beq_iff_eq] at hx
          simp only [DataService.likeMatches, hx.1, hx.2]
          rw [likeMatches_new] at hnew
          simpa using hnew
        rw [List.any_append]
        simp only [List.any_cons, List.any_nil, hnew, Bool.or_false]
        rw [any_removeFirstLike_of_disjoint p u _ _ hdisj]
  · have hex' : (DataService.getLikes ls).any (DataService.likeMatches p u) = false := by
      simpa using hex
    have hget1 : DataService.getLikes (DataService.toggleLike p u ts ls)
        = DataService.getLikes ls ++ [⟨p, u, ts⟩] := by
      rw [getLikes_toggleLike, hex']
      simp
    have hany1 : (DataService.getLikes ls ++ [(⟨p, u, ts⟩ : Like)]).any
        (DataService.likeMatches p u) = true := by
      rw [List.any_append]
      simp [DataService.likeMatches]
    have h2 : DataService.getLikes
        (DataService.toggleLike p u ts2 (DataService.toggleLike p u ts ls))
        = DataService.getLikes ls := by
      rw [getLikes_toggleLike, hget1, hany1, if_pos rfl,
        removeFirstLike_append_of_absent p u _ _ hex']
      simp [DataService.removeFirstLike, DataService.likeMatches]
    refine ⟨?_, fun _ => h2, ?_⟩
    · rw [isLiked_eq_any, isLiked_eq_any, hget1, hany1, hex']
      rfl
    · intro q v
      rw [isLiked_eq_any, isLiked_eq_any, h2]

/-- An initialized localStorage with all four collections empty. -/
def emptyLS : LocalStorage := ⟨some [], some [], some [], some [], none⟩

/-- Witness for the amended C2 on the empty Like collection. -/
theorem toggleLike_amended_witness :
    (DataService.getLikes emptyLS).countP (DataService.likeMatches "p1" "u1") ≤ 1 ∧
    DataService.isLiked "p1" "u1" (DataService.toggleLike "p1" "u1" "t1" emptyLS)
      = !(DataService.isLiked "p1" "u1" emptyLS) ∧
    DataService.getLikes (DataService.toggleLike "p1" "u1" "t2"
        (DataService.toggleLike "p1" "u1" "t1" emptyLS)) = DataService.getLikes emptyLS ∧
    DataService.isLiked "p2" "u2" (DataService.toggleLike "p1" "u1" "t2"
        (DataService.toggleLike "p1" "u1" "t1" emptyLS))
      = DataService.isLiked "p2" "u2" emptyLS := by
  have h := toggleLike_amended emptyLS "p1" "u1" "t1" "t2" (by decide)
  exact ⟨by decide, h.1, h.2.1 (by decide), h.2.2 "p2" "u2"⟩

/-- The Like-collection invariant: at most one like per (post, user) pair. -/
def atMostOnePerPair (likes : List Like) : Prop :=
  ∀ p u, likes.countP (DataService.likeMatches p u) ≤ 1

theorem toggleLike_preserves_invariant (p u ts : String) (ls : LocalStorage)
    (h : atMostOnePerPair (DataService.getLikes ls)) :
    atMostOnePerPair (DataService.getLikes (DataService.toggleLike p u ts ls)) := by
  intro q v
  rw [getLikes_toggleLike]
  by_cases hex : (DataService.getLikes ls).any (DataService.likeMatches p u)
  · rw [if_pos hex]
    exact le_trans ((removeFirstLike_sublist p u _).countP_le _) (h q v)
  · have hex' : (DataService.getLikes ls).any (DataService.likeMatches p u) = false := by
      simpa using hex
    rw [hex']
    simp only [Bool.false_eq_true, if_false]
    rw [List.countP_append]
    by_cases hqv : DataService.likeMatches q v ⟨p, u, ts⟩
    · have hz : (DataService.getLikes ls).countP (DataService.likeMatches q v) = 0 := by
        rw [likeMatches_new] at hqv
        simp only [Bool.and_eq_true, beq_iff_eq] at hqv
        obtain ⟨hq, hv⟩ := hqv
        subst hq; subst hv
        simp only [List.any_eq_false] at hex'
        rw [List.countP_eq_zero]
        exact hex'
      rw [hz]
      simp [hqv]
    · have hone : ([(⟨p, u, ts⟩ : Like)]).countP (DataService.likeMatches q v) = 0 := by
        simp [hqv]
      rw [hone]
      simpa using h q v

/-- C9: starting from an empty Like collection, every sequence of
toggleLike calls (each with its post id, user id and timestamp) keeps
the invariant that at most one like is stored per (post, user) pair. -/
theorem toggleLike_at_most_one_per_pair (calls : List (String × String × String))
    (ls : LocalStorage) (h : DataService.getLikes ls = []) :
    atMostOnePerPair (DataService.getLikes
      (calls.foldl (fun s c => DataService.toggleLike c.1 c.2.1 c.2.2 s) ls)) := by
  have h0 : atMostOnePerPair (DataService.getLikes ls) := by
    intro q v
    rw [h]
    simp
  clear h
  induction calls generalizing ls with
  | nil => exact h0
  | cons c cs ih =>
    exact ih (DataService.toggleLike c.1 c.2.1 c.2.2 ls)
      (toggleLike_preserves_invariant c.1 c.2.1 c.2.2 ls h0)

/-- Witness for C9 on a concrete call sequence from the empty store. -/
theorem toggleLike_at_most_one_per_pair_witness :
    (DataService.getLikes
        ([("p1", "u1", "t1"), ("p1", "u1", "t2"), ("p2", "u1", "t3")].foldl
          (fun s c => DataService.toggleLike c.1 c.2.1 c.2.2 s) emptyLS)).countP
      (DataService.likeMatches "p1" "u1") ≤ 1 :=
  toggleLike_at_most_one_per_pair [("p1", "u1", "t1"), ("p1", "u1", "t2"), ("p2", "u1", "t3")]
    emptyLS rfl "p1" "u1"

/-! The display-URL cache. -/

theorem lookupCache_append_self (xs : List (String × String)) (k v : String)
    (h : lookupCache xs k = none) : lookupCache (xs ++ [(k, v)]) k = some v := by
  induction xs with
  | nil => simp [lookupCache, List.find?]
  | cons x xs ih =>
    by_cases hx : (x.1 == k) = true
    · simp [lookupCache, List.find?_cons, hx] at h
    · have hx' : (x.1 == k) = false := by simpa using hx
      simp only [lookupCache, List.cons_append, List.find?_cons, hx'] at h ⊢
      exact ih h

/-- C6: for an identifier with no cached URL yet, getImageUrl returns an
inline data:image string unchanged; when the blob is absent from the
store it returns the empty-string unavailable result (it never throws,
being a total function into plain results); and when the blob is
present it returns a freshly materialized object URL, caches the
mapping, and a second call returns the same cached URL with the cache
unchanged. -/
theorem getImageUrl_spec (st : BlobStore) (c : UrlCache) (imageId : String)
    (h : lookupCache c.cache imageId = none) :
    (jsStartsWith imageId "data:image" = true → getImageUrl imageId st c = (imageId, c)) ∧
    (jsStartsWith imageId "data:image" = false → lookupBlob st.blobs imageId = none →
      getImageUrl imageId st c = ("", c)) ∧
    (∀ b, jsStartsWith imageId "data:image" = false → lookupBlob st.blobs imageId = some b →
      getImageUrl imageId st c =
        (createObjectURL c.urlCounter,
          ⟨c.cache ++ [(imageId, createObjectURL c.urlCounter)], c.urlCounter + 1⟩) ∧
      getImageUrl imageId st (getImageUrl imageId st c).2
        = ((getImageUrl imageId st c).1, (getImageUrl imageId st c).2)) := by
  refine ⟨?_, ?_, ?_⟩
  · intro hd
    simp [getImageUrl, h, hd]
  · intro hd hb
    simp [getImageUrl, h, hd, hb]
  · intro b hd hb
    have h1 : getImageUrl imageId st c =
        (createObjectURL c.urlCounter,
          ⟨c.cache ++ [(imageId, createObjectURL c.urlCounter)], c.urlCounter + 1⟩) := by
      simp [getImageUrl, h, hd, hb]
    refine ⟨h1, ?_⟩
    rw [h1]
    simp [getImageUrl, lookupCache_append_self _ _ _ h]

/-- Witness for C6: a fresh cache and a one-blob store; the blob-present
branch materializes blob:0, caches it, and resolves to it again. -/
theorem getImageUrl_spec_witness :
    lookupCache (⟨[], 0⟩ : UrlCache).cache "img_1" = none ∧
    getImageUrl "img_1" ⟨[("img_1", "X")], 5⟩ ⟨[], 0⟩
      = (createObjectURL 0, ⟨[("img_1", createObjectURL 0)], 1⟩) ∧
    getImageUrl "img_1" ⟨[("img_1", "X")], 5⟩
        (getImageUrl "img_1" ⟨[("img_1", "X")], 5⟩ ⟨[], 0⟩).2
      = ((getImageUrl "img_1" ⟨[("img_1", "X")], 5⟩ ⟨[], 0⟩).1,
        (getImageUrl "img_1" ⟨[("img_1", "X")], 5⟩ ⟨[], 0⟩).2) := by
  have h := getImageUrl_spec ⟨[("img_1", "X")], 5⟩ ⟨[], 0⟩ "img_1" (by decide)
  have h3 := h.2.2 "X" (by decide) (by decide)
  exact ⟨by decide, h3.1.trans (by decide), h3.2⟩

/-! The upsert / readAll refinement. -/

/-- Spec-side description for C3: the distinct identifiers of a record
sequence, in order of first occurrence. -/
def firstOccKeys : List String → List String
  | [] => []
  | k :: ks => k :: (firstOccKeys ks).filter (fun x => x != k)

theorem mem_firstOccKeys (k : String) (ids : List String) :
    k ∈ firstOccKeys ids ↔ k ∈ ids := by
  induction ids with
  | nil => simp [firstOccKeys]
  | cons a ids ih =>
    by_cases hk : k = a
    · simp [firstOccKeys, hk]
    · simp [firstOccKeys, List.mem_filter, hk, ih]

theorem nodup_firstOccKeys (ids : List String) : (firstOccKeys ids).Nodup := by
  induction ids with
  | nil => simp [firstOccKeys]
  | cons a ids ih =>
    refine List.Nodup.cons ?_ (ih.filter _)
    intro hmem
    have := List.of_mem_filter hmem
    simp at this

theorem firstOccKeys_append_singleton (ids : List String) (k : String) :
    firstOccKeys (ids ++ [k])
      = if k ∈ ids then firstOccKeys ids else firstOccKeys ids ++ [k] := by
  induction ids with
  | nil => simp [firstOccKeys]
  | cons a ids ih =>
    by_cases hmem : k ∈ ids
    · have h1 : firstOccKeys ((a :: ids) ++ [k])
          = a :: (firstOccKeys (ids ++ [k])).filter (fun x => x != a) := rfl
      rw [h1, ih, if_pos hmem, if_pos (by simp [hmem])]
      rfl
    · by_cases hak : k = a
      · subst hak
        have h1 : firstOccKeys ((k :: ids) ++ [k])
            = k :: (firstOccKeys (ids ++ [k])).filter (fun x => x != k) := rfl
        rw [h1, ih, if_neg hmem, if_pos (by simp), List.filter_append]
        simp [firstOccKeys]
      · have h1 : firstOccKeys ((a :: ids) ++ [k])
            = a :: (firstOccKeys (ids ++ [k])).filter (fun x => x != a) := rfl
        rw [h1, ih, if_neg hmem, if_neg (by simp [hak, hmem]), List.filter_append]
        simp [firstOccKeys, hak]

theorem map_key_upsertBy (key : α → String) (r : α) (l : List α) :
    (DataService.upsertBy key r l).map key
      = if key r ∈ l.map key then l.map key else l.map key ++ [key r] := by
  induction l with
  | nil => simp [DataService.upsertBy]
  | cons x xs ih =>
    by_cases h : key x = key r
    · simp [DataService.upsertBy, h]
    · by_cases hm : key r ∈ xs.map key
      · simp [DataService.upsertBy, h, ih, hm, Ne.symm h]
      · simp [DataService.upsertBy, h, ih, hm, Ne.symm h]

theorem mem_upsertBy (key : α → String) (r : α) (l : List α) (x : α)
    (h : x ∈ DataService.upsertBy key r l) : x = r ∨ x ∈ l := by
  induction l with
  | nil => simpa [DataService.upsertBy] using h
  | cons y ys ih =>
    by_cases hy : key y = key r
    · simp only [DataService.upsertBy, if_pos hy, List.mem_cons] at h
      rcases h with h | h
      · exact Or.inl h
      · exact Or.inr (List.mem_cons_of_mem y h)
    · simp only [DataService.upsertBy, if_neg hy, List.mem_cons] at h
      rcases h with h | h
      · exact Or.inr (by simp [h])
      · rcases ih h with h | h
        · exact Or.inl h
        · exact Or.inr (List.mem_cons_of_mem y h)

theorem eq_of_mem_upsertBy_key (key : α → String) (r : α) (l : List α) (x : α)
    (hnd : (l.map key).Nodup) (hx : x ∈ DataService.upsertBy key r l)
    (hk : key x = key r) : x = r := by
  induction l with
  | nil => simpa [DataService.upsertBy] using hx
  | cons y ys ih =>
    simp only [List.map_cons, List.nodup_cons] at hnd
    by_cases hy : key y = key r
    · simp only [DataService.upsertBy, if_pos hy, List.mem_cons] at hx
      rcases hx with hx | hx
      · exact hx
      · have hmem : key y ∈ List.map key ys := by
          rw [hy, ← hk]
          exact List.mem_map_of_mem key hx
        exact absurd hmem hnd.1
    · simp only [DataService.upsertBy, if_neg hy, List.mem_cons] at hx
      rcases hx with hx | hx
      · exact absurd (hx ▸ hk) hy
      · exact ih hnd.2 hx

theorem foldl_upsertBy_spec (key : α → String) (rs : List α) :
    ((rs.foldl (fun acc r => DataService.upsertBy key r acc) []).map key
        = firstOccKeys (rs.map key)) ∧
    (∀ x ∈ rs.foldl (fun acc r => DataService.upsertBy key r acc) [],
      (rs.filter (fun r => key r == key x)).getLast? = some x) := by
  induction rs using List.reverseRecOn with
  | nil => simp [firstOccKeys]
  | append_singleton rs r ih =>
    have hacc := ih.1
    have hnd : ((rs.foldl (fun acc r => DataService.upsertBy key r acc) []).map key).Nodup :=
      hacc ▸ nodup_firstOccKeys _
    constructor
    · rw [List.foldl_append, List.foldl_cons, List.foldl_nil, map_key_upsertBy, hacc,
        List.map_append, List.map_cons, List.map_nil, firstOccKeys_append_singleton]
      by_cases hm : key r ∈ rs.map key
      · simp [hm, (mem_firstOccKeys _ _).2 hm]
      · have hm' : key r ∉ firstOccKeys (rs.map key) := fun hc =>
          hm ((mem_firstOccKeys _ _).1 hc)
        simp [hm, hm']
    · intro x hx
      rw [List.foldl_append, List.foldl_cons, List.foldl_nil] at hx
      rw [List.filter_append]
      by_cases hk : key x = key r
      · have hxr : x = r := eq_of_mem_upsertBy_key key r _ x hnd hx hk
        subst hxr
        have : List.filter (fun a => key a == key x) [x] = [x] := by simp
        rw [this, List.getLast?_concat]
      · have hx' : x ∈ rs.foldl (fun acc r => DataService.upsertBy key r acc) [] := by
          rcases mem_upsertBy key r _ x hx with h | h
          · exact absurd (h ▸ rfl) hk
          · exact h
        have hr : List.filter (fun a => key a == key x) [r] = [] := by
          simp [Ne.symm hk]
        rw [hr, List.append_nil]
        exact ih.2 x hx'

theorem getUsers_foldl_saveUser (us : List User) (ls : LocalStorage) :
    DataService.getUsers (us.foldl (fun s u => DataService.saveUser u s) ls)
      = us.foldl (fun acc u => DataService.upsertBy User.id u acc)
          (DataService.getUsers ls) := by
  induction us generalizing ls with
  | nil => rfl
  | cons u us ih =>
    rw [List.foldl_cons, List.foldl_cons, ih]
    rfl

theorem getPosts_foldl_savePost (ps : List Post) (ls : LocalStorage) :
    DataService.getPosts (ps.foldl (fun s p => DataService.savePost p s) ls)
      = ps.foldl (fun acc p => DataService.upsertBy Post.id p acc)
          (DataService.getPosts ls) := by
  induction ps generalizing ls with
  | nil => rfl
  | cons p ps ih =>
    rw [List.foldl_cons, List.foldl_cons, ih]
    rfl

/-- C3: folding any sequence of saveUser (resp. savePost) calls over an
initially empty collection yields a collection whose identifiers are
exactly the distinct upserted identifiers in first-occurrence order
(hence one record per distinct identifier, the key list having no
duplicates), and each stored record is the most recently upserted
record with its identifier. -/
theorem upsert_readAll_spec (us : List User) (ps : List Post) (ls : LocalStorage)
    (hu : DataService.getUsers ls = []) (hp : DataService.getPosts ls = []) :
    ((DataService.getUsers (us.foldl (fun s u => DataService.saveUser u s) ls)).map User.id
        = firstOccKeys (us.map User.id)) ∧
    (firstOccKeys (us.map User.id)).Nodup ∧
    (∀ x ∈ DataService.getUsers (us.foldl (fun s u => DataService.saveUser u s) ls),
      (us.filter (fun r => r.id == x.id)).getLast? = some x) ∧
    ((DataService.getPosts (ps.foldl (fun s p => DataService.savePost p s) ls)).map Post.id
        = firstOccKeys (ps.map Post.id)) ∧
    (firstOccKeys (ps.map Post.id)).Nodup ∧
    (∀ x ∈ DataService.getPosts (ps.foldl (fun s p => DataService.savePost p s) ls),
      (ps.filter (fun r => r.id == x.id)).getLast? = some x) := by
  have hbu : DataService.getUsers (us.foldl (fun s u => DataService.saveUser u s) ls)
      = us.foldl (fun acc u => DataService.upsertBy User.id u acc) [] := by
    rw [getUsers_foldl_saveUser, hu]
  have hbp : DataService.getPosts (ps.foldl (fun s p => DataService.savePost p s) ls)
      = ps.foldl (fun acc p => DataService.upsertBy Post.id p acc) [] := by
    rw [getPosts_foldl_savePost, hp]
  refine ⟨?_, nodup_firstOccKeys _, ?_, ?_, nodup_firstOccKeys _, ?_⟩
  · rw [hbu]
    exact (foldl_upsertBy_spec User.id us).1
  · intro x hx
    rw [hbu] at hx
    exact (foldl_upsertBy_spec User.id us).2 x hx
  · rw [hbp]
    exact (foldl_upsertBy_spec Post.id ps).1
  · intro x hx
    rw [hbp] at hx
    exact (foldl_upsertBy_spec Post.id ps).2 x hx

/-- Concrete users for the C3 witness: the third reuses the first id. -/
def wUser1 : User := ⟨"u1", "a", "b", "t1"⟩

def wUser2 : User := ⟨"u2", "c", "d", "t2"⟩

def wUser1b : User := ⟨"u1", "e", "f", "t3"⟩

/-- Witness for C3: three saveUser calls over the empty store, the last
one reusing the first identifier; keys come out deduplicated in
first-occurrence order and the duplicated id maps to the last value. -/
theorem upsert_readAll_witness :
    DataService.getUsers emptyLS = [] ∧
    (DataService.getUsers ([wUser1, wUser2, wUser1b].foldl
        (fun s u => DataService.saveUser u s) emptyLS)).map User.id
      = firstOccKeys ([wUser1, wUser2, wUser1b].map User.id) ∧
    ([wUser1, wUser2, wUser1b].filter (fun r => r.id == wUser1b.id)).getLast?
      = some wUser1b := by
  have h := upsert_readAll_spec [wUser1, wUser2, wUser1b] [] emptyLS rfl rfl
  exact ⟨rfl, h.1, h.2.2.1 wUser1b (by decide)⟩

end ArchLog
